import Mathlib

/-!
Shallow embedding of the `filedb` package (filedb.go).  The repository holds
two near-duplicate implementations of the same store: a generically typed
variant (`DB[D]`, whose `Update` retries unboundedly) and a dynamically typed
variant (`DB`, whose `Update` takes an explicit `retries` budget).  Both share
the same attempt body `do`, the same key-path mapping, the same listing filter
and the same JSON entry codec, so one set of definitions below serves both;
the retry loops are embedded separately.
-/

namespace FileDB

/-! ### JSON values

Model of the JSON documents that `encoding/json` reads and writes.  Only the
shape matters here: entry files written by the store always hold a JSON
object. -/

inductive Json where
  | null
  | bool (b : Bool)
  | num (n : Int)
  | str (s : String)
  | arr (elems : List Json)
  | obj (fields : List (String × Json))

/-- Go error values that the embedded operations can surface.  `notExist`
stands for `os.ErrNotExist`, `concurrentMod` for the `ErrConcurrentMod`
sentinel (`errConcurrentMod` in the generic variant), `decodeErr` for a
`json` decode failure and `applyErr` for an error returned by the
caller-supplied apply function. -/
inductive GoErr where
  | notExist
  | concurrentMod
  | decodeErr
  | applyErr (msg : String)
deriving DecidableEq, Repr

/-- the persisted unit `dbEntry` of filedb.go: a version and an optional
document (`doc *D` resp. `doc any`; `none` models a nil pointer /
nil interface). -/
structure dbEntry (D : Type) where
  version : Int
  doc : Option D
deriving DecidableEq, Repr

/-- what `json.NewEncoder(f).Encode(dbEntry{...})` writes.  Go's
`encoding/json` serializes only exported struct fields; both fields of
`dbEntry` (`version`, `doc`) are lower-case, hence unexported, so `Encode`
emits the empty JSON object regardless of the entry's contents. -/
def encodeEntry {D : Type} (_e : dbEntry D) : Json :=
  Json.obj []

/-- what `json.NewDecoder(f).Decode(&e)` produces for a stored JSON value.
Decoding a JSON object into `dbEntry` sets no fields (none are exported, and
unknown keys are skipped), leaving the zero value `{version: 0, doc: nil}`;
a JSON null likewise leaves the struct untouched; any other top-level value
is a type error. -/
def decodeEntry (D : Type) (j : Json) : Except GoErr (dbEntry D) :=
  match j with
  | Json.obj _ => Except.ok { version := 0, doc := none }
  | Json.null => Except.ok { version := 0, doc := none }
  | _ => Except.error GoErr.decodeErr

/-! ### Key-path mapping

`keyPath`, `lockPath` and the temp-file naming of `tmpFile` (filedb.go).
Paths are slash-separated strings; `filepath.ToSlash` is the identity on a
slash-separator OS.  `filepath.Join` joins the non-empty elements with a
slash and runs `filepath.Clean` on the result, which resolves `.` and `..`
segments lexically. -/

/-- split a character list on the slash separator into path elements. -/
def splitCh : List Char → List Char → List (List Char)
  | [], cur => [cur.reverse]
  | c :: rest, cur =>
      if c = '/' then cur.reverse :: splitCh rest []
      else splitCh rest (c :: cur)

/-- process one path element the way `filepath.Clean` does, with `out` the
(reversed) stack of elements kept so far: empty and `.` elements are
dropped; `..` pops the previous element when that is a real name, is dropped
at the start of a rooted path, and is kept otherwise. -/
def cleanPush (rooted : Bool) (out : List (List Char)) (e : List Char) : List (List Char) :=
  if e = [] ∨ e = ['.'] then out
  else if e = ['.', '.'] then
    match out with
    | [] => if rooted then [] else [['.', '.']]
    | top :: rest => if top = ['.', '.'] then e :: out else rest
  else e :: out

/-- `filepath.Clean` for slash-separated paths. -/
def pathClean (p : String) : String :=
  let cs := p.data
  let rooted : Bool :=
    match cs with
    | c :: _ => c == '/'
    | [] => false
  let out := ((splitCh cs []).foldl (cleanPush rooted) []).reverse
  let body := String.intercalate "/" (out.map (fun l => String.mk l))
  if rooted then (if out = [] then "/" else "/" ++ body)
  else (if out = [] then "." else body)

/-- `filepath.Join` of two elements: empty elements are dropped, the rest
joined with a slash, and the result cleaned; all-empty input yields `""`. -/
def pathJoin (a b : String) : String :=
  if a = "" ∧ b = "" then ""
  else if a = "" then pathClean b
  else if b = "" then pathClean a
  else pathClean (a ++ "/" ++ b)

/-- `filepath.ToSlash`: the identity when the OS separator is already the
slash. -/
def toSlash (s : String) : String := s

/-- `keyPath(root, key) = filepath.Join(root, filepath.ToSlash(key))`. -/
def keyPath (root key : String) : String :=
  pathJoin root (toSlash key)

/-- `lockPath(root, key) = filepath.Join(root, filepath.ToSlash(key) + "...lock")`. -/
def lockPath (root key : String) : String :=
  pathJoin root (toSlash key ++ "...lock")

/-- the file name `os.CreateTemp(dir, base + "...tmp.*")` produces inside
`tmpFile`: the trailing `*` of the pattern is replaced by a random non-empty
decimal string, so the created file is named `base + "...tmp." + rand`. -/
def tmpName (base rand : String) : String :=
  base ++ "...tmp." ++ rand

/-- observation helper: `p` lies under directory `root`, i.e. it is `root`
itself or starts with `root` followed by a slash. -/
def isUnderRoot (root p : String) : Bool :=
  p == root || (root.data ++ ['/']).isPrefixOf p.data

/-! ### Filesystem state

The slice of the filesystem the store touches: regular files (entry files and
staged temporaries) as an association list from path to JSON content, newest
binding first, and the set of lock files, which `lockedfile.MutexAt` creates
and the store never removes. -/

structure FS where
  files : List (String × Json)
  locks : List String

/-- read the content of the regular file at `p`, if present. -/
def assocGet (p : String) : List (String × Json) → Option Json
  | [] => none
  | (q, j) :: rest => if q = p then some j else assocGet p rest

def getFile (s : FS) (p : String) : Option Json :=
  assocGet p s.files

/-- create or overwrite the regular file at `p`. -/
def putFile (s : FS) (p : String) (j : Json) : FS :=
  { files := (p, j) :: s.files, locks := s.locks }

/-- drop every binding of path `p`. -/
def removeAll (p : String) : List (String × Json) → List (String × Json)
  | [] => []
  | (q, j) :: rest =>
      if q = p then removeAll p rest else (q, j) :: removeAll p rest

/-- `os.Remove` on a regular file; removing a missing file is a no-op at the
state level (the `ErrNotExist` it reports is handled at each call site). -/
def removeFile (s : FS) (p : String) : FS :=
  { files := removeAll p s.files, locks := s.locks }

/-- `lockedfile.MutexAt(l).Lock()` creates the lock file `l` if needed; the
file persists after `unlock`. -/
def addLockFile (s : FS) (l : String) : FS :=
  { files := s.files, locks := l :: s.locks }

/-! ### Store operations -/

/-- `db.get(key)`: open the canonical path (a missing file is
`os.ErrNotExist`) and JSON-decode its content into a `dbEntry`. -/
def dbGet (D : Type) (s : FS) (root key : String) : Except GoErr (dbEntry D) :=
  match getFile s (keyPath root key) with
  | none => Except.error GoErr.notExist
  | some j => decodeEntry D j

/-- the `if err != nil && !errors.Is(err, os.ErrNotExist)` pattern of
`Update`: a missing file is replaced by the zero entry
`{version: 0, doc: nil}`; every other error propagates. -/
def entryOrZero {D : Type} : Except GoErr (dbEntry D) → Except GoErr (dbEntry D)
  | Except.error GoErr.notExist => Except.ok { version := 0, doc := none }
  | r => r

/-- public `Get` (identical in both variants): a missing key is `(nil, nil)`,
any other failure propagates, otherwise the decoded document is returned. -/
def GetOp (D : Type) (s : FS) (root key : String) : Except GoErr (Option D) :=
  match dbGet D s root key with
  | Except.error GoErr.notExist => Except.ok none
  | Except.error e => Except.error e
  | Except.ok e => Except.ok e.doc

/-- the locked tail of the closure `do` inside `Update`, entered with the
staged temporary already written and the per-key lock held over state `s2`:
re-read the current entry (missing treated as the zero entry), compare its
version with the one read before staging, and on disagreement discard the
temporary and signal `ErrConcurrentMod`; otherwise rename the temporary
over the canonical path.  The deferred `os.Remove(f.Name())` is reflected by
removing `tmpPath` on every exit; on the rename-failure exit (temporary
gone) Go returns the pair `(newDoc, err)`, of which the model keeps the
error. -/
def commitPhase {D : Type} (root key tmpPath : String) (newDoc : D)
    (oldVersion : Int) (s2 : FS) : Except GoErr (Option D) × FS :=
  match entryOrZero (dbGet D s2 root key) with
  | Except.error e => (Except.error e, removeFile s2 tmpPath)
  | Except.ok neww =>
    if neww.version ≠ oldVersion then
      (Except.error GoErr.concurrentMod, removeFile s2 tmpPath)
    else
      match getFile s2 tmpPath with
      | some staged =>
          (Except.ok (some newDoc),
           putFile (removeFile s2 tmpPath) (keyPath root key) staged)
      | none => (Except.error GoErr.notExist, s2)

/-- one execution of the closure `do` inside `Update` (the body is shared
verbatim by both variants): read the current entry (missing treated as the
zero entry), apply the caller's function, on a nil result remove the
canonical file, otherwise stage the encoded successor entry
`{version: old.version + 1, doc: newDoc}` in a fresh temporary file, take
the per-key lock and finish with `commitPhase`.  `tmpPath` stands for the
fresh name `os.CreateTemp` picks and `interfere` for whatever other writers
do to the filesystem before the lock is acquired (`id` when the attempt runs
alone). -/
def attempt {D : Type} (root key : String)
    (apply : Option D → Except GoErr (Option D))
    (tmpPath : String) (interfere : FS → FS) (s : FS) :
    Except GoErr (Option D) × FS :=
  match entryOrZero (dbGet D s root key) with
  | Except.error e => (Except.error e, s)
  | Except.ok old =>
    match apply old.doc with
    | Except.error e => (Except.error e, s)
    | Except.ok none => (Except.ok none, removeFile s (keyPath root key))
    | Except.ok (some newDoc) =>
      commitPhase root key tmpPath newDoc old.version
        (addLockFile
          (interfere (putFile s tmpPath
            (encodeEntry { version := old.version + 1, doc := some newDoc })))
          (lockPath root key))

/-- the retry loop of the dynamically typed variant's
`Update(key, apply, retries)`: `for i := 0; retries < 0 || i < retries; i++`
runs `do`, returns its result unless the error is the `ErrConcurrentMod`
sentinel, and once the loop condition fails returns `(nil, ErrConcurrentMod)`.
For a budget `retries = n ≥ 0` the loop performs at most `n` iterations, so
`n` is the structural argument; `tmps i` is the temporary name `os.CreateTemp`
picks on iteration `i`, and attempts run without interference (`id`). -/
def updateRetries {D : Type} (root key : String)
    (apply : Option D → Except GoErr (Option D))
    (tmps : Nat → String) (i : Nat) :
    Nat → FS → Except GoErr (Option D) × FS
  | 0, s => (Except.error GoErr.concurrentMod, s)
  | Nat.succ b, s =>
    match attempt root key apply (tmps i) id s with
    | (Except.error GoErr.concurrentMod, s1) =>
        updateRetries root key apply tmps (i + 1) b s1
    | r => r

/-- `Delete(key)` of the dynamically typed variant:
`db.Update(key, func(_ any) (any, error) { return nil, nil }, 0)`. -/
def DeleteV2 (D : Type) (root key : String) (s : FS) :
    Except GoErr (Option D) × FS :=
  updateRetries root key (fun _ => Except.ok none) (fun _ => "") 0 0 s

/-- `SetWithRetry(key, doc, retries)` of the dynamically typed variant:
`db.Update(key, func(_ any) (any, error) { return doc, nil }, retries)`;
`Set(key, doc)` is `SetWithRetry(key, doc, 0)`. -/
def SetWithRetryV2 (D : Type) (root key : String) (d : D)
    (tmps : Nat → String) (retries : Nat) (s : FS) :
    Except GoErr (Option D) × FS :=
  updateRetries root key (fun _ => Except.ok (some d)) tmps 0 retries s

/-- the retry loop of the generically typed variant's `Update(key, apply)`:
`for { doc, err := do(); if err == nil || err != errConcurrentMod { return doc, err } }`
retries only on the conflict sentinel, with no budget.  The same loop governs
the dynamically typed variant when `retries < 0` (the condition
`retries < 0 || i < retries` is then always true).  The unbounded loop is
modelled with an explicit iteration bound `fuel`; `none` stands for a run
still retrying after `fuel` attempts.  `updateLoopV1_returns_first_attempt`
below shows the loop always returns its first attempt, for any positive
fuel, because `do` can never produce the sentinel. -/
def updateLoopV1 {D : Type} (root key : String)
    (apply : Option D → Except GoErr (Option D))
    (tmps : Nat → String) (i : Nat) :
    Nat → FS → Option (Except GoErr (Option D) × FS)
  | 0, _ => none
  | Nat.succ b, s =>
    match attempt root key apply (tmps i) id s with
    | (Except.error GoErr.concurrentMod, s1) =>
        updateLoopV1 root key apply tmps (i + 1) b s1
    | r => some r

/-- `Update(key, apply)` of the generically typed variant, run with a single
choice of temporary name for every iteration. -/
def UpdateV1 (D : Type) (root key : String)
    (apply : Option D → Except GoErr (Option D))
    (tmp : String) (fuel : Nat) (s : FS) :
    Option (Except GoErr (Option D) × FS) :=
  updateLoopV1 root key apply (fun _ => tmp) 0 fuel s

/-- `Set(key, doc)` of the generically typed variant:
`db.Update(key, func(_ *D) (*D, error) { return doc, nil })`. -/
def SetV1 (D : Type) (root key : String) (d : D) (tmp : String) (fuel : Nat)
    (s : FS) : Option (Except GoErr (Option D) × FS) :=
  UpdateV1 D root key (fun _ => Except.ok (some d)) tmp fuel s

/-! ### Open -/

/-- `Open(root)`: read the root directory; if it is empty, create the
`.filedb` marker and succeed; otherwise succeed exactly when the marker can
be stat-ed, and fail without touching the directory when it cannot.  The
directory is modelled by the list of names it contains. -/
def openDB (ents : List String) : Except String Unit × List String :=
  if ents.isEmpty then (Except.ok (), ents ++ [".filedb"])
  else if ents.contains ".filedb" then (Except.ok (), ents)
  else (Except.error "root not empty and cannot read .filedb", ents)

/-! ### Listing -/

/-- a directory entry as returned by `os.ReadDir`: a bare name (never
containing a path separator) and whether it is a subdirectory. -/
structure DirEnt where
  name : String
  isDir : Bool
deriving DecidableEq, Repr

/-- `strings.HasSuffix`. -/
def hasSuffix (s post : String) : Bool :=
  post.data.isSuffixOf s.data

/-- `List(prefix)` applied to the entries `os.ReadDir` returns for the
prefix directory (identical in both variants): skip subdirectories and names
ending in `"...tmp"` or `"...lock"`, and collect the remaining bare names. -/
def listKeys (ents : List DirEnt) : List String :=
  (ents.filter (fun e =>
    !e.isDir && !(hasSuffix e.name "...tmp") && !(hasSuffix e.name "...lock"))).map
    DirEnt.name

/-- observation helper: the version recorded in the entry file stored for
`key`, read back through the store's own decoder. -/
def storedVersion (D : Type) (s : FS) (root key : String) : Option Int :=
  match getFile s (keyPath root key) with
  | none => none
  | some j =>
    match decodeEntry D j with
    | Except.ok e => some e.version
    | Except.error _ => none

/-! ### Supporting lemmas about the filesystem state -/

theorem assocGet_removeAll_self (p : String) (l : List (String × Json)) :
    assocGet p (removeAll p l) = none := by
  induction l with
  | nil => rfl
  | cons kv rest ih =>
    obtain ⟨q, j⟩ := kv
    by_cases hq : q = p
    · simpa [removeAll, hq] using ih
    · simp [removeAll, hq, assocGet, ih]

theorem assocGet_removeAll_ne (p q : String) (l : List (String × Json))
    (h : q ≠ p) :
    assocGet q (removeAll p l) = assocGet q l := by
  induction l with
  | nil => rfl
  | cons kv rest ih =>
    obtain ⟨a, j⟩ := kv
    by_cases ha : a = p
    · have hpq : p ≠ q := Ne.symm h
      simp [removeAll, ha, assocGet, hpq, ih]
    · by_cases haq : a = q
      · simp [removeAll, assocGet, haq, h, ih]
      · simp [removeAll, ha, assocGet, haq, ih]

theorem getFile_putFile_self (s : FS) (p : String) (j : Json) :
    getFile (putFile s p j) p = some j := by
  simp [getFile, putFile, assocGet]

theorem getFile_putFile_ne (s : FS) (p q : String) (j : Json) (h : q ≠ p) :
    getFile (putFile s p j) q = getFile s q := by
  simp [getFile, putFile, assocGet, h.symm]

theorem getFile_removeFile_self (s : FS) (p : String) :
    getFile (removeFile s p) p = none :=
  assocGet_removeAll_self p s.files

theorem getFile_removeFile_ne (s : FS) (p q : String) (h : q ≠ p) :
    getFile (removeFile s p) q = getFile s q :=
  assocGet_removeAll_ne p q s.files h

theorem getFile_addLockFile (s : FS) (l q : String) :
    getFile (addLockFile s l) q = getFile s q := rfl

/-! ### The version read back from disk is always zero

Because `dbEntry` has no exported fields, every stored entry decodes to the
zero value, so both the first read and the locked re-read of an attempt see
version `0` and the conflict branch of `do` can never fire. -/

theorem entryOrZero_dbGet_spec (D : Type) (s : FS) (root key : String) :
    entryOrZero (dbGet D s root key)
        = Except.ok ({ version := 0, doc := none } : dbEntry D) ∨
    entryOrZero (dbGet D s root key) = Except.error GoErr.decodeErr := by
  unfold dbGet
  cases hG : getFile s (keyPath root key) with
  | none => left; rfl
  | some j => cases j <;> simp [decodeEntry, entryOrZero]

theorem commitPhase_not_concurrentMod (D : Type) (root key tmpPath : String)
    (newDoc : D) (s2 : FS) :
    (commitPhase root key tmpPath newDoc 0 s2).1
      ≠ Except.error GoErr.concurrentMod := by
  unfold commitPhase
  rcases entryOrZero_dbGet_spec D s2 root key with h | h
  · cases hT : getFile s2 tmpPath <;> simp [h, hT]
  · simp [h]

theorem attempt_not_concurrentMod (D : Type) (root key tmpPath : String)
    (apply : Option D → Except GoErr (Option D)) (interfere : FS → FS)
    (s : FS)
    (happly : ∀ d, apply d ≠ Except.error GoErr.concurrentMod) :
    (attempt root key apply tmpPath interfere s).1
      ≠ Except.error GoErr.concurrentMod := by
  unfold attempt
  rcases entryOrZero_dbGet_spec D s root key with h | h
  · simp only [h]
    cases h2 : apply (none : Option D) with
    | error e2 =>
      intro hEq
      exact happly none (h2.trans hEq)
    | ok nd =>
      cases nd with
      | none => simp
      | some n => exact commitPhase_not_concurrentMod D root key tmpPath n _
  · simp [h]

theorem updateLoopV1_returns_first_attempt (D : Type) (root key : String)
    (apply : Option D → Except GoErr (Option D)) (tmps : Nat → String)
    (i b : Nat) (s : FS)
    (happly : ∀ d, apply d ≠ Except.error GoErr.concurrentMod) :
    updateLoopV1 root key apply tmps i (b + 1) s
      = some (attempt root key apply (tmps i) id s) := by
  have h := attempt_not_concurrentMod D root key (tmps i) apply id s happly
  rcases hA : attempt root key apply (tmps i) id s with ⟨res, s1⟩
  rw [updateLoopV1, hA]
  cases res with
  | ok d => rfl
  | error e =>
    cases e with
    | notExist => rfl
    | decodeErr => rfl
    | applyErr m => rfl
    | concurrentMod => exact absurd (by rw [hA]) h

theorem commitPhase_error_frame (D : Type) (root key tmpPath : String)
    (newDoc : D) (oldVersion : Int) (s2 : FS) (e : GoErr)
    (hne : keyPath root key ≠ tmpPath)
    (h : (commitPhase root key tmpPath newDoc oldVersion s2).1
          = Except.error e) :
    getFile (commitPhase root key tmpPath newDoc oldVersion s2).2
        (keyPath root key) = getFile s2 (keyPath root key) ∧
    getFile (commitPhase root key tmpPath newDoc oldVersion s2).2 tmpPath
      = none := by
  unfold commitPhase at h ⊢
  cases h3 : entryOrZero (dbGet D s2 root key) with
  | error e3 =>
    simp only [h3]
    exact ⟨getFile_removeFile_ne s2 tmpPath (keyPath root key) hne,
      getFile_removeFile_self s2 tmpPath⟩
  | ok neww =>
    simp only [h3] at h ⊢
    by_cases hv : neww.version ≠ oldVersion
    · simp only [if_pos hv]
      exact ⟨getFile_removeFile_ne s2 tmpPath (keyPath root key) hne,
        getFile_removeFile_self s2 tmpPath⟩
    · simp only [if_neg hv] at h ⊢
      cases h4 : getFile s2 tmpPath with
      | some staged => simp only [h4] at h; exact Except.noConfusion h
      | none => simp [h4]

/-! ### Claim theorems -/

/-- C1: the claim says `Update(key, apply, maxRetries = 0)` performs exactly
one full attempt.  The code's loop `for i := 0; retries < 0 || i < retries; i++`
runs zero iterations when `retries = 0`, so `Update` returns
`ErrConcurrentMod` unconditionally, without calling `do` even once: the
result and the filesystem are the same for every apply function, including
ones whose attempt would have committed. -/
theorem update_retries_zero_performs_no_attempt (D : Type) (root key : String)
    (apply : Option D → Except GoErr (Option D)) (tmps : Nat → String)
    (s : FS) :
    updateRetries root key apply tmps 0 0 s
      = (Except.error GoErr.concurrentMod, s) := rfl

/-- C2: the claim says a successful `Set(k, d)` followed by `Get(k)` returns
`d`.  In the generically typed variant `Set("k", "v")` on an empty store
succeeds and returns the document, but the committed entry file holds the
empty JSON object (`dbEntry` has no exported fields), so `Get("k")` returns
`nil`, not `"v"`; and in the dynamically typed variant
`Set = SetWithRetry(…, 0)` cannot succeed at all, failing with
`ErrConcurrentMod` before any attempt. -/
theorem set_then_get_loses_document :
    (SetV1 String "/db" "k" "v" "/db/k...tmp.1" 1
        { files := [], locks := [] }).map
        (fun r => (r.1, GetOp String r.2 "/db" "k"))
      = some (Except.ok (some "v"), Except.ok none) ∧
    SetWithRetryV2 String "/db" "k" "v" (fun _ => "/db/k...tmp.1") 0
        { files := [], locks := [] }
      = (Except.error GoErr.concurrentMod, { files := [], locks := [] }) ∧
    (Except.ok (none : Option String) : Except GoErr (Option String))
      ≠ Except.ok (some "v") :=
  ⟨rfl, rfl, by simp⟩

/-- C3: the claim says the stored version increases by 1 per successful
commit and equals `N` after `N` successful updates.  Two successful updates
of key `"k"` from non-existence both commit, yet the version read back from
the entry file afterwards is `0`, not `2`: each commit encodes
`old.version + 1` where `old.version` decoded to `0`, and the encoder then
writes `{}` since `dbEntry` has no exported fields. -/
theorem stored_version_stays_zero_after_two_updates :
    ((UpdateV1 String "/db" "k" (fun _ => Except.ok (some "a"))
        "/db/k...tmp.1" 1 { files := [], locks := [] }).bind
      (fun r1 =>
        (UpdateV1 String "/db" "k" (fun _ => Except.ok (some "b"))
            "/db/k...tmp.2" 1 r1.2).map
          (fun r2 => (r1.1, r2.1, storedVersion String r2.2 "/db" "k"))))
      = some (Except.ok (some "a"), Except.ok (some "b"), some 0) ∧
    (some (0 : Int) ≠ some (2 : Int)) :=
  ⟨rfl, by simp⟩

/-- C4: the claim says `List` excludes every temporary file left behind by
interrupted attempts.  `os.CreateTemp(dir, base + "...tmp.*")` names its
file `base + "...tmp." + rand`, which does not end in `"...tmp"`, so the
filter `strings.HasSuffix(name, "...tmp")` never matches a real temporary:
a directory holding the leftover `a...tmp.123456789` has it returned by
`List` alongside the real key, while lock files and subdirectories are
dropped. -/
theorem list_includes_leftover_temp_file :
    hasSuffix (tmpName "a" "123456789") "...tmp" = false ∧
    listKeys [{ name := tmpName "a" "123456789", isDir := false },
        { name := "a...lock", isDir := false },
        { name := "sub", isDir := true },
        { name := "b", isDir := false }]
      = [tmpName "a" "123456789", "b"] :=
  ⟨rfl, rfl⟩

/-- C5: the claim says M concurrent increment updates with unbounded retries
leave the final document equal to M.  The sequential schedule is one
admissible interleaving of M = 2 concurrent calls; on it both updates
succeed, but each apply sees the stored document as nil (entries decode to
the zero value) and so returns 1, and the committed file stores no document
at all, so the final `Get` returns nil — neither the final document nor
either returned document is 2. -/
theorem two_sequential_increments_yield_absent_document :
    ((UpdateV1 Int "/db" "k" (fun o => Except.ok (some (o.getD 0 + 1)))
        "/db/k...tmp.1" 1 { files := [], locks := [] }).bind
      (fun r1 =>
        (UpdateV1 Int "/db" "k" (fun o => Except.ok (some (o.getD 0 + 1)))
            "/db/k...tmp.2" 1 r1.2).map
          (fun r2 => (r1.1, r2.1, GetOp Int r2.2 "/db" "k"))))
      = some (Except.ok (some 1), Except.ok (some 1), Except.ok none) ∧
    (Except.ok (none : Option Int) : Except GoErr (Option Int))
      ≠ Except.ok (some 2) :=
  ⟨rfl, by simp⟩

/-- C6: the claim says no key can map to a storage path outside the root.
`keyPath` is `filepath.Join(root, key)` with no sanitization, and `Join`
cleans `"/db/../x"` to `"/x"`: the key `"../x"` addresses a path outside
the root `"/db"`, so every operation on that key reads, writes or removes
outside the root. -/
theorem keyPath_escapes_root_on_dotdot_key :
    keyPath "/db" "../x" = "/x" ∧
    isUnderRoot "/db" (keyPath "/db" "../x") = false :=
  ⟨rfl, rfl⟩

/-- C7: an attempt of `Update` that ends in any error leaves the canonical
entry file of the key exactly as it was and leaves no staged temporary
behind, provided the temporary name is fresh (as `os.CreateTemp`
guarantees) and distinct from the canonical path (as its `"...tmp."` infix
guarantees). -/
theorem attempt_error_preserves_entry_state (D : Type)
    (root key tmpPath : String)
    (apply : Option D → Except GoErr (Option D)) (s : FS) (e : GoErr)
    (hne : keyPath root key ≠ tmpPath)
    (hfresh : getFile s tmpPath = none)
    (herr : (attempt root key apply tmpPath id s).1 = Except.error e) :
    getFile (attempt root key apply tmpPath id s).2 (keyPath root key)
        = getFile s (keyPath root key) ∧
    getFile (attempt root key apply tmpPath id s).2 tmpPath = none := by
  unfold attempt at herr ⊢
  cases h1 : entryOrZero (dbGet D s root key) with
  | error e1 =>
    simp only [h1]
    exact ⟨by trivial, hfresh⟩
  | ok old =>
    simp only [h1] at herr ⊢
    cases h2 : apply old.doc with
    | error e2 =>
      simp only [h2]
      exact ⟨by trivial, hfresh⟩
    | ok nd =>
      cases nd with
      | none =>
        simp only [h2] at herr
        exact Except.noConfusion herr
      | some newDoc =>
        simp only [h2] at herr ⊢
        have hcan :
            getFile
              (addLockFile
                (id (putFile s tmpPath
                  (encodeEntry
                    { version := old.version + 1, doc := some newDoc })))
                (lockPath root key)) (keyPath root key)
              = getFile s (keyPath root key) := by
          rw [getFile_addLockFile, id_eq,
            getFile_putFile_ne s tmpPath (keyPath root key) _ hne]
        rcases commitPhase_error_frame D root key tmpPath newDoc old.version
            _ e hne herr with ⟨hc, ht⟩
        exact ⟨hc.trans hcan, ht⟩

/-- witness for C7: a concrete erroring attempt (the apply function fails)
over a store holding one entry leaves that entry untouched and stages no
temporary. -/
theorem attempt_error_preserves_entry_state_witness :
    getFile (attempt "/db" "k"
        (fun _ : Option String => Except.error (GoErr.applyErr "boom"))
        "/db/k...tmp.9" id
        { files := [("/db/k", Json.obj [])], locks := [] }).2
        (keyPath "/db" "k")
      = getFile ({ files := [("/db/k", Json.obj [])], locks := [] } : FS)
        (keyPath "/db" "k") ∧
    getFile (attempt "/db" "k"
        (fun _ : Option String => Except.error (GoErr.applyErr "boom"))
        "/db/k...tmp.9" id
        { files := [("/db/k", Json.obj [])], locks := [] }).2
      "/db/k...tmp.9" = none :=
  attempt_error_preserves_entry_state String "/db" "k" "/db/k...tmp.9"
    (fun _ => Except.error (GoErr.applyErr "boom"))
    { files := [("/db/k", Json.obj [])], locks := [] }
    (GoErr.applyErr "boom") (by decide) rfl rfl

/-- C8: the claim says `Delete` on an already-absent key succeeds.  In the
dynamically typed variant `Delete(key)` is `Update(key, …, 0)`, whose loop
runs zero iterations: on a store where `Get("k")` reports the key absent,
`Delete("k")` still returns `ErrConcurrentMod` instead of succeeding. -/
theorem delete_on_absent_key_returns_concurrentMod :
    GetOp String { files := [], locks := [] } "/db" "k" = Except.ok none ∧
    DeleteV2 String "/db" "k" { files := [], locks := [] }
      = (Except.error GoErr.concurrentMod, { files := [], locks := [] }) :=
  ⟨rfl, rfl⟩

/-- C9: `Open` on an empty root creates the `.filedb` marker and succeeds;
on a non-empty root without the marker it fails with the fixed error and
leaves the directory unchanged (in particular, no marker is created); on a
non-empty root with the marker it succeeds without touching the
directory. -/
theorem open_marker_behavior :
    openDB [] = (Except.ok (), [".filedb"]) ∧
    (∀ ents : List String, ents ≠ [] → ents.contains ".filedb" = false →
      openDB ents
        = (Except.error "root not empty and cannot read .filedb", ents)) ∧
    (∀ ents : List String, ents ≠ [] → ents.contains ".filedb" = true →
      openDB ents = (Except.ok (), ents)) := by
  refine ⟨rfl, ?_, ?_⟩
  · intro ents h1 h2
    have hE : ents.isEmpty = false := by
      cases ents with
      | nil => exact absurd rfl h1
      | cons a l => rfl
    simp at h2
    simp [openDB, hE, h2]
  · intro ents h1 h2
    have hE : ents.isEmpty = false := by
      cases ents with
      | nil => exact absurd rfl h1
      | cons a l => rfl
    simp at h2
    simp [openDB, hE, h2]

/-- witness for C9: a non-empty root without the marker is rejected
unchanged, and a non-empty root with the marker is accepted. -/
theorem open_marker_behavior_witness :
    openDB ["x"]
      = (Except.error "root not empty and cannot read .filedb", ["x"]) ∧
    openDB [".filedb", "x"] = (Except.ok (), [".filedb", "x"]) :=
  ⟨open_marker_behavior.2.1 ["x"] (by decide) (by decide),
   open_marker_behavior.2.2 [".filedb", "x"] (by decide) (by decide)⟩

/-- C10: every key returned by `List` is the bare name of a non-directory
entry that `os.ReadDir` reported immediately under the prefix directory —
never a prefix-qualified path (it contains no separator, since `ReadDir`
names never do) and never an entry nested below a subdirectory (directories
are skipped and `ReadDir` does not recurse). -/
theorem list_returns_bare_immediate_names (ents : List DirEnt) (k : String)
    (hnames : ∀ e ∈ ents, e.name.data.contains '/' = false)
    (hk : k ∈ listKeys ents) :
    (∃ e, e ∈ ents ∧ e.isDir = false ∧ e.name = k) ∧
    k.data.contains '/' = false := by
  unfold listKeys at hk
  rcases List.mem_map.mp hk with ⟨e, he, hek⟩
  rcases List.mem_filter.mp he with ⟨hmem, hpred⟩
  simp only [Bool.and_eq_true, Bool.not_eq_true'] at hpred
  exact ⟨⟨e, hmem, hpred.1.1, hek⟩, hek ▸ hnames e hmem⟩

/-- witness for C10: on a directory with the single regular entry `a`, the
listed key `a` is that entry's bare name. -/
theorem list_returns_bare_immediate_names_witness :
    (∃ e, e ∈ ([{ name := "a", isDir := false }] : List DirEnt) ∧
      e.isDir = false ∧ e.name = "a") ∧
    ("a" : String).data.contains '/' = false :=
  list_returns_bare_immediate_names [{ name := "a", isDir := false }] "a"
    (by decide) (by decide)

end FileDB
